import Mathlib

/-!
Shallow embedding of the core of the Movie-Recommendation-System repository
(file `src/git.py`): the recommendation ranking logic (`recommend`), the
criteria filter (`filter_movies_by_criteria`) and the trailer resolver
(`fetch_trailer`), together with theorems settling the spec's claims.

Modelling conventions:
* A catalog row of the pandas DataFrame `movies` is a `Movie` (its
  `movie_id` and `title` columns, position = list index).
* The precomputed `similarity` matrix is a list of rows of rational scores.
* Python's stable `sorted(..., reverse=True, key=lambda x: x[1])` over
  `enumerate(row)` produces the unique permutation that is sorted by the
  total order `simOrder` (score descending, ties by ascending position):
  we model it with `List.insertionSort simOrder`.
* The external metadata enricher `fetch_movie_details` is an oracle
  `details : Nat → Details` mapping a `movie_id` to the fetched fields;
  a rating of `none` models the non-numeric "N/A"/"unknown" sentinel
  (on which Python's `float(rating)` raises).
* `recommend` returns the selected `(position, score)` pairs; the source
  builds one output dict per selected position, so the returned sequence
  is determined by these pairs.  A missing title (pandas `IndexError`)
  is modelled as `none`.
* `filter_movies_by_criteria` returns the list of matched catalog
  positions (each output dict of the source is a function of the matched
  position via `movies` and the `details` oracle) together with the
  number of loop iterations executed (= catalog entries scanned, i.e.
  entries whose metadata was fetched).
-/

/-- A catalog entry: one row of the `movies` DataFrame. -/
structure Movie where
  movie_id : Nat
  title : String
deriving DecidableEq

/-- The comparison realised by `sorted(list(enumerate(similarity[index])), reverse=True, key=lambda x: x[1])`:
score descending, ties broken by ascending position (Python's sort is stable and
`enumerate` lists positions in ascending order). -/
def simOrder (a b : Nat × ℚ) : Prop :=
  b.2 < a.2 ∨ (a.2 = b.2 ∧ a.1 ≤ b.1)

instance : DecidableRel simOrder := fun a b =>
  inferInstanceAs (Decidable (b.2 < a.2 ∨ (a.2 = b.2 ∧ a.1 ≤ b.1)))

instance : IsTotal (Nat × ℚ) simOrder where
  total a b := by
    rcases lt_trichotomy a.2 b.2 with h | h | h
    · exact Or.inr (Or.inl h)
    · rcases Nat.le_total a.1 b.1 with hp | hp
      · exact Or.inl (Or.inr ⟨h, hp⟩)
      · exact Or.inr (Or.inr ⟨h.symm, hp⟩)
    · exact Or.inl (Or.inl h)

instance : IsTrans (Nat × ℚ) simOrder where
  trans a b c hab hbc := by
    rcases hab with hab | ⟨hab, pab⟩
    · rcases hbc with hbc | ⟨hbc, _⟩
      · exact Or.inl (hbc.trans hab)
      · exact Or.inl (hbc ▸ hab)
    · rcases hbc with hbc | ⟨hbc, pbc⟩
      · exact Or.inl (hab ▸ hbc)
      · exact Or.inr ⟨hab.trans hbc, pab.trans pbc⟩

/-- Embedding of `recommend(movie, num_results)` from `src/git.py`:

    index = movies[movies['title'] == movie].index[0]
    distances = sorted(list(enumerate(similarity[index])), reverse=True, key=lambda x: x[1])
    ... for i in distances[1:num_results + 1]: ...

The first index whose title equals `movie` is looked up (`none` models the
`IndexError` raised when no row matches); row `index` of the similarity matrix
is enumerated, stably sorted by descending score, and the slice
`[1 : num_results + 1]` (drop 1, take `num_results`) gives the selected
`(position, score)` pairs. -/
def recommend (movies : List Movie) (similarity : List (List ℚ))
    (movie : String) (num_results : Nat) : Option (List (Nat × ℚ)) :=
  match movies.findIdx? (fun m => m.title == movie) with
  | none => none
  | some index =>
    match similarity[index]? with
    | none => none
    | some row =>
      some ((((row.enum).insertionSort simOrder).drop 1).take num_results)

/-! ### Criteria filter (`filter_movies_by_criteria`) -/

/-- Whether `needle` occurs at the head of `hay` (character-exact). -/
def leadsWith : List Char → List Char → Bool
  | [], _ => true
  | _ :: _, [] => false
  | a :: as, b :: bs => a == b && leadsWith as bs

/-- Embedding of Python's substring operator `needle in hay` on strings,
as a scan over the character list. -/
def hasSub : List Char → List Char → Bool
  | needle, [] => needle.isEmpty
  | needle, c :: t => leadsWith needle (c :: t) || hasSub needle t

/-- Python's `needle in hay` on strings. -/
def strIn (needle hay : String) : Bool :=
  hasSub needle.data hay.data

/-- Python's `s.lower()`: lower-case every character. -/
def lowerStr (s : String) : String :=
  ⟨s.data.map Char.toLower⟩


/-- The tuple returned by the external `fetch_movie_details(movie_id)`
(poster URL, comma-joined genres, rating, comma-joined top-5 cast).  A rating
of `none` models the non-numeric sentinel (`'N/A'` fallback or a missing
`vote_average`), on which Python's `float(rating)` raises. -/
structure Details where
  poster : String
  genres : String
  rating : Option ℚ
  cast : String

/-- The loop body of `filter_movies_by_criteria` from `src/git.py`:

    for i in range(len(movies)):
        ... fetch details for movies.iloc[i] ...
        if genre.lower() in genres.lower() and cast.lower() in cast_list.lower():
            try:
                if float(rating) >= min_rating:
                    matched.append({...})
                    if len(matched) >= num_results:
                        break
            except:
                continue

`i` is the position of the next movie to scan, `cnt` the number of matches
collected so far (`len(matched)`).  The first component of the result is the
list of matched positions appended by the remaining iterations, the second the
number of remaining iterations executed (each iteration fetches metadata for
exactly one catalog entry). -/
def filterLoop (details : Nat → Details) (genre cast : String)
    (min_rating : ℚ) (num_results : Int) :
    Nat → Nat → List Movie → List Nat × Nat
  | _, _, [] => ([], 0)
  | i, cnt, m :: rest =>
    if strIn (lowerStr genre) (lowerStr (details m.movie_id).genres)
        && strIn (lowerStr cast) (lowerStr (details m.movie_id).cast) then
      match (details m.movie_id).rating with
      | some r =>
        if min_rating ≤ r then
          if num_results ≤ (cnt : Int) + 1 then ([i], 1)
          else
            let out := filterLoop details genre cast min_rating num_results
              (i + 1) (cnt + 1) rest
            (i :: out.1, out.2 + 1)
        else
          let out := filterLoop details genre cast min_rating num_results
            (i + 1) cnt rest
          (out.1, out.2 + 1)
      | none =>
        let out := filterLoop details genre cast min_rating num_results
          (i + 1) cnt rest
        (out.1, out.2 + 1)
    else
      let out := filterLoop details genre cast min_rating num_results
        (i + 1) cnt rest
      (out.1, out.2 + 1)

/-- Embedding of `filter_movies_by_criteria(genre, cast, min_rating,
num_results)`: the list of matched catalog positions, in scan order (each
output dict of the source is determined by its matched position via `movies`
and the `details` oracle). -/
def filter_movies_by_criteria (movies : List Movie) (details : Nat → Details)
    (genre cast : String) (min_rating : ℚ) (num_results : Int) : List Nat :=
  (filterLoop details genre cast min_rating num_results 0 0 movies).1

/-- The number of catalog entries scanned (loop iterations executed, hence
metadata fetches performed) by `filter_movies_by_criteria`. -/
def scannedCount (movies : List Movie) (details : Nat → Details)
    (genre cast : String) (min_rating : ℚ) (num_results : Int) : Nat :=
  (filterLoop details genre cast min_rating num_results 0 0 movies).2

instance decidableRatingAtLeast (d : Option ℚ) (mr : ℚ) :
    Decidable (∃ r, d = some r ∧ mr ≤ r) :=
  match d with
  | none => isFalse (by rintro ⟨r, h, _⟩; exact Option.noConfusion h)
  | some v =>
    if h : mr ≤ v then isTrue ⟨v, rfl, h⟩
    else isFalse (by rintro ⟨r, hr, hle⟩; injection hr with h2; exact h (h2 ▸ hle))

/-! ### Trailer resolver (`fetch_trailer`) -/

/-- One entry of the video list returned by the TMDB `/videos` endpoint. -/
structure Video where
  type : String
  site : String
  key : String

/-- Embedding of `fetch_trailer(movie_id)` from `src/git.py`.  The request
outcome is the input: `none` models any failure of the request (the bare
`except` branch), `some results` the parsed `data.get('results', [])` list.
The first entry whose type is `"Trailer"` and whose site is `"YouTube"` yields
its watch URL; otherwise the fixed fallback `"https://youtube.com"` is
returned. -/
def fetch_trailer (resp : Option (List Video)) : String :=
  match resp with
  | none => "https://youtube.com"
  | some results =>
    match results.find? (fun v => v.type == "Trailer" && v.site == "YouTube") with
    | some v => "https://www.youtube.com/watch?v=" ++ v.key
    | none => "https://youtube.com"


/-! ### Concrete catalog and metadata oracles used by the witnesses -/

/-- A three-movie demonstration catalog. -/
def demoCatalog : List Movie := [⟨1, "A"⟩, ⟨2, "B"⟩, ⟨3, "C"⟩]

/-- A demonstration metadata oracle: movie 2 is a low-rated comedy, movie 3
carries the non-numeric rating sentinel, everything else is a well-rated
action drama. -/
def demoDetails : Nat → Details := fun k =>
  if k = 2 then ⟨"p2", "Comedy", some 3, "Yuri"⟩
  else if k = 3 then ⟨"p3", "Horror", none, "Zed"⟩
  else ⟨"p1", "Action, Drama", some 8, "Xavier, Yuri"⟩

/-- A demonstration metadata oracle whose ratings are all numeric and
nonnegative. -/
def demoDetailsNumeric : Nat → Details := fun _ => ⟨"p", "Action", some 8, "X"⟩

/-! ### Helper lemmas about the sorted distance list -/

/-- The positions occurring in the stably sorted enumeration of a similarity
row are pairwise distinct. -/
theorem nodup_fst_sortedEnum (row : List ℚ) :
    (((row.enum).insertionSort simOrder).map Prod.fst).Nodup := by
  have hperm : List.Perm ((row.enum).insertionSort simOrder) row.enum :=
    List.perm_insertionSort _ _
  exact ((hperm.map Prod.fst).nodup_iff).mpr (List.nodup_enum_map_fst row)

/-- The sorted distance list is pairwise ordered by strictly descending score,
with ties broken by strictly ascending position. -/
theorem pairwise_sortedEnum (row : List ℚ) :
    ((row.enum).insertionSort simOrder).Pairwise
      (fun a b => b.2 < a.2 ∨ (a.2 = b.2 ∧ a.1 < b.1)) := by
  have hs : List.Sorted simOrder ((row.enum).insertionSort simOrder) :=
    List.sorted_insertionSort _ _
  have hne : ((row.enum).insertionSort simOrder).Pairwise
      (fun a b : Nat × ℚ => a.1 ≠ b.1) :=
    List.pairwise_map.mp (nodup_fst_sortedEnum row)
  refine (hs.and hne).imp ?_
  rintro a b ⟨hab, hfst⟩
  rcases hab with h | ⟨he, hle⟩
  · exact Or.inl h
  · exact Or.inr ⟨he, lt_of_le_of_ne hle hfst⟩

/-- Unfolding lemma: when the title resolves to position `idx` and the
similarity matrix has a row at `idx`, `recommend` returns the slice
`[1 : num_results + 1]` of the stably sorted enumerated row. -/
theorem recommend_eq (movies : List Movie) (similarity : List (List ℚ))
    (t : String) (n idx : Nat) (row : List ℚ)
    (hf : movies.findIdx? (fun m => m.title == t) = some idx)
    (hr : similarity[idx]? = some row) :
    recommend movies similarity t n =
      some ((((row.enum).insertionSort simOrder).drop 1).take n) := by
  simp only [recommend, hf, hr]

/-- C2: for every valid title, the sequence returned by `recommend` is ordered
by non-increasing similarity score, and among entries with equal scores the one
at the earlier catalog position comes first. -/
theorem recommend_sorted_desc (movies : List Movie) (similarity : List (List ℚ))
    (t : String) (n : Nat) (res : List (Nat × ℚ))
    (h : recommend movies similarity t n = some res) :
    res.Pairwise (fun a b => b.2 < a.2 ∨ (a.2 = b.2 ∧ a.1 < b.1)) := by
  cases hf : movies.findIdx? (fun m => m.title == t) with
  | none =>
    simp only [recommend, hf] at h
    exact Option.noConfusion h
  | some idx =>
    cases hr : similarity[idx]? with
    | none =>
      simp only [recommend, hf, hr] at h
      exact Option.noConfusion h
    | some row =>
      rw [recommend_eq movies similarity t n idx row hf hr] at h
      injection h with h
      subst h
      exact (pairwise_sortedEnum row).sublist
        ((List.take_sublist _ _).trans (List.drop_sublist _ _))

/-- C2 witness: a concrete catalog on which the conclusion of
`recommend_sorted_desc` is evaluated. -/
theorem recommend_sorted_desc_witness :
    recommend [⟨1, "A"⟩, ⟨2, "B"⟩, ⟨3, "C"⟩]
        [[10, 8, 3], [8, 10, 5], [3, 5, 10]] "A" 2 = some [(1, 8), (2, 3)] ∧
    List.Pairwise (fun a b : Nat × ℚ => b.2 < a.2 ∨ (a.2 = b.2 ∧ a.1 < b.1))
      [(1, 8), (2, 3)] :=
  ⟨by decide,
    recommend_sorted_desc [⟨1, "A"⟩, ⟨2, "B"⟩, ⟨3, "C"⟩]
      [[10, 8, 3], [8, 10, 5], [3, 5, 10]] "A" 2 [(1, 8), (2, 3)] (by decide)⟩

/-- C5: a title equal to no catalog entry's title makes `recommend` fail
(the modelled `NotFoundError`, raised by the source as an index error on the
empty title match) instead of returning a result sequence. -/
theorem recommend_title_not_found (movies : List Movie)
    (similarity : List (List ℚ)) (t : String) (n : Nat)
    (h : ∀ m ∈ movies, m.title ≠ t) :
    recommend movies similarity t n = none := by
  have hf : movies.findIdx? (fun m => m.title == t) = none :=
    List.findIdx?_eq_none_iff.mpr (fun m hm => by simpa using h m hm)
  simp only [recommend, hf]

/-- C5 witness: the concrete title "Z" is absent and `recommend` fails. -/
theorem recommend_title_not_found_witness :
    (∀ m ∈ [(⟨1, "A"⟩ : Movie), ⟨2, "B"⟩, ⟨3, "C"⟩], m.title ≠ "Z") ∧
    recommend [⟨1, "A"⟩, ⟨2, "B"⟩, ⟨3, "C"⟩]
      [[10, 8, 3], [8, 10, 5], [3, 5, 10]] "Z" 5 = none :=
  ⟨by decide, recommend_title_not_found _ _ _ 5 (by decide)⟩

/-- C10: for a valid title and a count at least the catalog size, `recommend`
does not fail and returns exactly `catalogSize - 1` entries: the slice
`[1 : num_results + 1]` is silently clipped to the available entries. -/
theorem recommend_count_clipped (movies : List Movie)
    (similarity : List (List ℚ)) (t : String) (n idx : Nat) (row : List ℚ)
    (hf : movies.findIdx? (fun m => m.title == t) = some idx)
    (hr : similarity[idx]? = some row)
    (hlen : row.length = movies.length)
    (hn : movies.length ≤ n) :
    ∃ res, recommend movies similarity t n = some res ∧
      res.length = movies.length - 1 := by
  refine ⟨_, recommend_eq movies similarity t n idx row hf hr, ?_⟩
  have hL : ((row.enum).insertionSort simOrder).length = row.length := by
    rw [(List.perm_insertionSort _ _).length_eq, List.enum_length]
  rw [List.length_take, List.length_drop, hL, hlen]
  omega

/-- C10 witness: count 5 on a 3-movie catalog yields 2 results. -/
theorem recommend_count_clipped_witness :
    List.findIdx? (fun m => m.title == "A")
        [(⟨1, "A"⟩ : Movie), ⟨2, "B"⟩, ⟨3, "C"⟩] = some 0 ∧
    [[(10 : ℚ), 8, 3], [8, 10, 5], [3, 5, 10]][0]? = some [10, 8, 3] ∧
    ∃ res, recommend [⟨1, "A"⟩, ⟨2, "B"⟩, ⟨3, "C"⟩]
        [[10, 8, 3], [8, 10, 5], [3, 5, 10]] "A" 5 = some res ∧
      res.length = [(⟨1, "A"⟩ : Movie), ⟨2, "B"⟩, ⟨3, "C"⟩].length - 1 :=
  ⟨by decide, by decide,
    recommend_count_clipped [⟨1, "A"⟩, ⟨2, "B"⟩, ⟨3, "C"⟩]
      [[10, 8, 3], [8, 10, 5], [3, 5, 10]] "A" 5 0 [10, 8, 3]
      (by decide) (by decide) (by decide) (by decide)⟩

/-- C1 counterexample: on a 2-movie catalog whose similarity row for "A" has a
self-similarity score (5) smaller than the score of the other movie (9),
`recommend("A", 1)` with 1 ∈ [1, catalogSize - 1] returns the self-entry at
position 0 — the position of "A" itself — so the claimed self-exclusion fails. -/
theorem recommend_includes_self_cex :
    List.findIdx? (fun m => m.title == "A") [(⟨1, "A"⟩ : Movie), ⟨2, "B"⟩] =
      some 0 ∧
    recommend [⟨1, "A"⟩, ⟨2, "B"⟩] [[5, 9], [9, 10]] "A" 1 = some [(0, 5)] := by
  constructor
  · decide
  · decide

/-- C1 (amended): when the self-similarity score at the title's position `p`
is strictly greater than every other score of row `p`, `recommend` returns
exactly `n` results for every `n ∈ [1, catalogSize - 1]` and the self-entry at
position `p` is never among them. -/
theorem recommend_excludes_self (movies : List Movie)
    (similarity : List (List ℚ)) (t : String) (n p : Nat) (row : List ℚ)
    (hf : movies.findIdx? (fun m => m.title == t) = some p)
    (hr : similarity[p]? = some row)
    (hlen : row.length = movies.length)
    (hp : p < row.length)
    (hmax : ∀ j, j < row.length → j ≠ p → row.getD j 0 < row.getD p 0)
    (hn1 : 1 ≤ n) (hn2 : n ≤ movies.length - 1) :
    ∃ res, recommend movies similarity t n = some res ∧
      res.length = n ∧ ∀ x ∈ res, x.1 ≠ p := by
  have hperm : List.Perm ((row.enum).insertionSort simOrder) row.enum :=
    List.perm_insertionSort _ _
  have hgetp : row.get? p = some (row.getD p 0) := by
    rw [List.getD_eq_getElem row 0 hp, List.get?_eq_getElem?]
    exact List.getElem?_eq_getElem hp
  have hmemEnum : ((p, row.getD p 0) : Nat × ℚ) ∈ row.enum := by
    rw [List.mem_enum_iff_get?]
    exact_mod_cast hgetp
  have hmemL : ((p, row.getD p 0) : Nat × ℚ) ∈
      (row.enum).insertionSort simOrder := hperm.mem_iff.mpr hmemEnum
  obtain ⟨x, rest, hL⟩ :
      ∃ x rest, (row.enum).insertionSort simOrder = x :: rest := by
    cases hC : (row.enum).insertionSort simOrder with
    | nil => rw [hC] at hmemL; cases hmemL
    | cons a l => exact ⟨a, l, rfl⟩
  have hx : x = (p, row.getD p 0) := by
    by_contra hne
    have hxmem : x ∈ row.enum :=
      hperm.mem_iff.mp (hL ▸ List.mem_cons_self x rest)
    have hxget : row.get? x.1 = some x.2 := by
      have := List.mem_enum_iff_get?.mp hxmem
      exact_mod_cast this
    have hx1lt : x.1 < row.length := by
      by_contra hcon
      rw [List.get?_eq_none.mpr (Nat.le_of_not_lt hcon)] at hxget
      exact Option.noConfusion hxget
    have hx1p : x.1 ≠ p := by
      intro he
      rw [he, hgetp] at hxget
      injection hxget with h2
      exact hne (Prod.ext he h2.symm)
    have hscore : x.2 < row.getD p 0 := by
      have hm := hmax x.1 hx1lt hx1p
      rw [List.getD_eq_getD_get?, hxget] at hm
      simpa using hm
    have hpmem : ((p, row.getD p 0) : Nat × ℚ) ∈ rest := by
      rw [hL] at hmemL
      rcases List.mem_cons.mp hmemL with he | hm
      · exact absurd he.symm hne
      · exact hm
    have hsorted := List.sorted_insertionSort simOrder (row.enum)
    rw [hL] at hsorted
    have hrel : simOrder x (p, row.getD p 0) :=
      List.rel_of_sorted_cons hsorted _ hpmem
    rcases hrel with hlt | ⟨heq, _⟩
    · exact absurd hscore (not_lt.mpr hlt.le)
    · exact absurd heq (ne_of_lt hscore)
  subst hx
  refine ⟨_, recommend_eq movies similarity t n p row hf hr, ?_, ?_⟩
  · rw [hL]
    have hLlen : ((row.enum).insertionSort simOrder).length = row.length := by
      rw [hperm.length_eq, List.enum_length]
    rw [hL] at hLlen
    simp only [List.length_cons] at hLlen
    show (rest.take n).length = n
    rw [List.length_take]
    omega
  · rw [hL]
    intro y hy
    have hnodup := nodup_fst_sortedEnum row
    rw [hL] at hnodup
    simp only [List.map_cons] at hnodup
    have hpnot : p ∉ rest.map Prod.fst := (List.nodup_cons.mp hnodup).1
    have hymem : y ∈ rest := (List.take_sublist _ _).subset hy
    intro he
    exact hpnot (he ▸ List.mem_map_of_mem Prod.fst hymem)

/-- C1 witness: strict-maximum self-similarity on a concrete catalog; the
amended theorem is applied at `n = 2` on a 3-movie catalog. -/
theorem recommend_excludes_self_witness :
    List.findIdx? (fun m => m.title == "A")
        [(⟨1, "A"⟩ : Movie), ⟨2, "B"⟩, ⟨3, "C"⟩] = some 0 ∧
    (∀ j, j < 3 → j ≠ 0 →
      [(10 : ℚ), 8, 3].getD j 0 < [(10 : ℚ), 8, 3].getD 0 0) ∧
    ∃ res, recommend [⟨1, "A"⟩, ⟨2, "B"⟩, ⟨3, "C"⟩]
        [[10, 8, 3], [8, 10, 5], [3, 5, 10]] "A" 2 = some res ∧
      res.length = 2 ∧ ∀ x ∈ res, x.1 ≠ 0 :=
  ⟨by decide, by decide,
    recommend_excludes_self [⟨1, "A"⟩, ⟨2, "B"⟩, ⟨3, "C"⟩]
      [[10, 8, 3], [8, 10, 5], [3, 5, 10]] "A" 2 0 [10, 8, 3]
      (by decide) (by decide) (by decide) (by decide) (by decide)
      (by decide) (by decide)⟩

/-! ### Filter lemmas -/

/-- Characterisation of matched positions: any position returned by the loop
starting at position `i` over the remaining list `l` points at an entry of `l`
that passes the genre, cast and rating predicates of the source. -/
theorem filterLoop_mem (details : Nat → Details) (genre cast : String)
    (mr : ℚ) (n : Int) :
    ∀ (l : List Movie) (i cnt j : Nat),
      j ∈ (filterLoop details genre cast mr n i cnt l).1 →
      ∃ k, k < l.length ∧ j = i + k ∧
        ∃ m, l[k]? = some m ∧
          strIn (lowerStr genre) (lowerStr (details m.movie_id).genres) = true ∧
          strIn (lowerStr cast) (lowerStr (details m.movie_id).cast) = true ∧
          ∃ r, (details m.movie_id).rating = some r ∧ mr ≤ r := by
  intro l
  induction l with
  | nil =>
    intro i cnt j hj
    simp [filterLoop] at hj
  | cons m rest ih =>
    intro i cnt j hj
    simp only [filterLoop] at hj
    split at hj
    · rename_i hcond
      obtain ⟨hg, hc⟩ := Bool.and_eq_true _ _ |>.mp hcond
      split at hj
      · rename_i r hrat
        split at hj
        · rename_i hle
          split at hj
          · rename_i hbreak
            simp only [List.mem_singleton] at hj
            subst hj
            exact ⟨0, by simp, by omega, m, by simp, hg, hc, r, hrat, hle⟩
          · rename_i hbreak
            simp only [List.mem_cons] at hj
            rcases hj with hj | hj
            · subst hj
              exact ⟨0, by simp, by omega, m, by simp, hg, hc, r, hrat, hle⟩
            · obtain ⟨k, hk, hjk, m', hm', hrest⟩ := ih (i + 1) (cnt + 1) j hj
              exact ⟨k + 1, by simp; omega, by omega, m', by simpa using hm',
                hrest⟩
        · rename_i hle
          obtain ⟨k, hk, hjk, m', hm', hrest⟩ := ih (i + 1) cnt j hj
          exact ⟨k + 1, by simp; omega, by omega, m', by simpa using hm', hrest⟩
      · rename_i hrat
        obtain ⟨k, hk, hjk, m', hm', hrest⟩ := ih (i + 1) cnt j hj
        exact ⟨k + 1, by simp; omega, by omega, m', by simpa using hm', hrest⟩
    · rename_i hcond
      obtain ⟨k, hk, hjk, m', hm', hrest⟩ := ih (i + 1) cnt j hj
      exact ⟨k + 1, by simp; omega, by omega, m', by simpa using hm', hrest⟩

/-- Matched positions are produced in strictly ascending order: the loop scans
positions in increasing order and appends matches as it finds them. -/
theorem filterLoop_pairwise (details : Nat → Details) (genre cast : String)
    (mr : ℚ) (n : Int) :
    ∀ (l : List Movie) (i cnt : Nat),
      (filterLoop details genre cast mr n i cnt l).1.Pairwise (· < ·) := by
  intro l
  induction l with
  | nil => intro i cnt; simp [filterLoop]
  | cons m rest ih =>
    intro i cnt
    simp only [filterLoop]
    split
    · split
      · split
        · split
          · simp
          · refine List.pairwise_cons.mpr ⟨?_, ih (i + 1) (cnt + 1)⟩
            intro y hy
            obtain ⟨k, _, hjk, _⟩ :=
              filterLoop_mem details genre cast mr n rest (i + 1) (cnt + 1) y hy
            omega
        · exact ih (i + 1) cnt
      · exact ih (i + 1) cnt
    · exact ih (i + 1) cnt

/-- As long as the quota has not yet been reached, the number of additional
matches collected never takes the total past `num_results`. -/
theorem filterLoop_length_le (details : Nat → Details) (genre cast : String)
    (mr : ℚ) (n : Int) :
    ∀ (l : List Movie) (i cnt : Nat), (cnt : Int) < n →
      ((filterLoop details genre cast mr n i cnt l).1.length : Int) + cnt ≤ n := by
  intro l
  induction l with
  | nil => intro i cnt hcnt; simp [filterLoop]; omega
  | cons m rest ih =>
    intro i cnt hcnt
    simp only [filterLoop]
    split
    · split
      · split
        · split
          · rename_i hbreak
            simp
            omega
          · rename_i hbreak
            have := ih (i + 1) (cnt + 1) (by omega)
            simp only [List.length_cons]
            push_cast
            push_cast at this
            omega
        · exact ih (i + 1) cnt hcnt
      · exact ih (i + 1) cnt hcnt
    · exact ih (i + 1) cnt hcnt

/-- Step equation: a matching movie that fills the quota makes the loop append
its position and break immediately. -/
theorem filterLoop_cons_break (details : Nat → Details) (genre cast : String)
    (mr : ℚ) (n : Int) (i cnt : Nat) (m : Movie) (rest : List Movie) (r : ℚ)
    (hcond : (strIn (lowerStr genre) (lowerStr (details m.movie_id).genres)
        && strIn (lowerStr cast) (lowerStr (details m.movie_id).cast)) = true)
    (hrat : (details m.movie_id).rating = some r)
    (hle : mr ≤ r)
    (hbreak : n ≤ (cnt : Int) + 1) :
    filterLoop details genre cast mr n i cnt (m :: rest) = ([i], 1) := by
  simp [filterLoop, hcond, hrat, hle, hbreak]

/-- Step equation: a matching movie below the quota is appended and the scan
continues at the next position with one more collected match. -/
theorem filterLoop_cons_keep (details : Nat → Details) (genre cast : String)
    (mr : ℚ) (n : Int) (i cnt : Nat) (m : Movie) (rest : List Movie) (r : ℚ)
    (hcond : (strIn (lowerStr genre) (lowerStr (details m.movie_id).genres)
        && strIn (lowerStr cast) (lowerStr (details m.movie_id).cast)) = true)
    (hrat : (details m.movie_id).rating = some r)
    (hle : mr ≤ r)
    (hbreak : ¬ n ≤ (cnt : Int) + 1) :
    (filterLoop details genre cast mr n i cnt (m :: rest)).1
      = i :: (filterLoop details genre cast mr n (i + 1) (cnt + 1) rest).1 ∧
    (filterLoop details genre cast mr n i cnt (m :: rest)).2
      = (filterLoop details genre cast mr n (i + 1) (cnt + 1) rest).2 + 1 := by
  constructor <;> simp [filterLoop, hcond, hrat, hle, hbreak]

/-- Step equation: a movie failing the genre/cast test, carrying the
non-numeric rating sentinel, or rated below the minimum, is skipped; the scan
continues at the next position with the match count unchanged (this is the
`continue` of the source's `except` branch and the failed `if` tests). -/
theorem filterLoop_cons_skip (details : Nat → Details) (genre cast : String)
    (mr : ℚ) (n : Int) (i cnt : Nat) (m : Movie) (rest : List Movie)
    (h : (strIn (lowerStr genre) (lowerStr (details m.movie_id).genres)
          && strIn (lowerStr cast) (lowerStr (details m.movie_id).cast)) = false
       ∨ (details m.movie_id).rating = none
       ∨ ∃ r, (details m.movie_id).rating = some r ∧ ¬ mr ≤ r) :
    (filterLoop details genre cast mr n i cnt (m :: rest)).1
      = (filterLoop details genre cast mr n (i + 1) cnt rest).1 ∧
    (filterLoop details genre cast mr n i cnt (m :: rest)).2
      = (filterLoop details genre cast mr n (i + 1) cnt rest).2 + 1 := by
  rcases h with h | h | ⟨r, hr, hle⟩
  · constructor <;> simp [filterLoop, h]
  · by_cases hc : (strIn (lowerStr genre) (lowerStr (details m.movie_id).genres)
        && strIn (lowerStr cast) (lowerStr (details m.movie_id).cast)) = true
    · constructor <;> simp [filterLoop, hc, h]
    · constructor <;> simp [filterLoop, hc]
  · by_cases hc : (strIn (lowerStr genre) (lowerStr (details m.movie_id).genres)
        && strIn (lowerStr cast) (lowerStr (details m.movie_id).cast)) = true
    · constructor <;> simp [filterLoop, hc, hr, hle]
    · constructor <;> simp [filterLoop, hc]

/-- When the quota is exactly met, the loop stops scanning right after the
position of the last collected match: the iteration count equals that
position's offset from the start plus one. -/
theorem filterLoop_scan_stops (details : Nat → Details) (genre cast : String)
    (mr : ℚ) (n : Int) :
    ∀ (l : List Movie) (i cnt : Nat), (cnt : Int) < n →
      ((filterLoop details genre cast mr n i cnt l).1.length : Int) + cnt = n →
      ∃ p, (filterLoop details genre cast mr n i cnt l).1.getLast? = some p ∧
        i + (filterLoop details genre cast mr n i cnt l).2 = p + 1 := by
  intro l
  induction l with
  | nil =>
    intro i cnt hcnt hlen
    simp [filterLoop] at hlen
    omega
  | cons m rest ih =>
    intro i cnt hcnt hlen
    by_cases hcond : (strIn (lowerStr genre)
          (lowerStr (details m.movie_id).genres)
        && strIn (lowerStr cast) (lowerStr (details m.movie_id).cast)) = true
    · cases hrat : (details m.movie_id).rating with
      | some r =>
        by_cases hle : mr ≤ r
        · by_cases hbreak : n ≤ (cnt : Int) + 1
          · rw [filterLoop_cons_break details genre cast mr n i cnt m rest r
              hcond hrat hle hbreak]
            exact ⟨i, by simp, by simp⟩
          · obtain ⟨e1, e2⟩ := filterLoop_cons_keep details genre cast mr n
              i cnt m rest r hcond hrat hle hbreak
            rw [e1, List.length_cons] at hlen
            have hlen' : ((filterLoop details genre cast mr n (i + 1) (cnt + 1)
                rest).1.length : Int) + (cnt + 1) = n := by
              push_cast at hlen ⊢
              omega
            obtain ⟨p, hp1, hp2⟩ := ih (i + 1) (cnt + 1) (by omega) hlen'
            refine ⟨p, ?_, ?_⟩
            · rw [e1]
              cases hX : (filterLoop details genre cast mr n (i + 1) (cnt + 1)
                  rest).1 with
              | nil =>
                rw [hX] at hlen'
                simp at hlen'
                omega
              | cons y ys =>
                rw [hX] at hp1
                rw [List.getLast?_cons_cons]
                exact hp1
            · rw [e2]
              omega
        · obtain ⟨e1, e2⟩ := filterLoop_cons_skip details genre cast mr n
            i cnt m rest (Or.inr (Or.inr ⟨r, hrat, hle⟩))
          rw [e1] at hlen
          obtain ⟨p, hp1, hp2⟩ := ih (i + 1) cnt hcnt hlen
          exact ⟨p, by rw [e1]; exact hp1, by rw [e2]; omega⟩
      | none =>
        obtain ⟨e1, e2⟩ := filterLoop_cons_skip details genre cast mr n
          i cnt m rest (Or.inr (Or.inl hrat))
        rw [e1] at hlen
        obtain ⟨p, hp1, hp2⟩ := ih (i + 1) cnt hcnt hlen
        exact ⟨p, by rw [e1]; exact hp1, by rw [e2]; omega⟩
    · obtain ⟨e1, e2⟩ := filterLoop_cons_skip details genre cast mr n
        i cnt m rest (Or.inl (by simpa using hcond))
      rw [e1] at hlen
      obtain ⟨p, hp1, hp2⟩ := ih (i + 1) cnt hcnt hlen
      exact ⟨p, by rw [e1]; exact hp1, by rw [e2]; omega⟩

/-- When every remaining movie passes all three predicates and the quota is
still `k` matches away (`k ≥ 1`), the loop returns exactly the next
`min k l.length` consecutive positions. -/
theorem filterLoop_all_pass (details : Nat → Details) (genre cast : String)
    (mr : ℚ) (n : Int) :
    ∀ (l : List Movie) (i cnt k : Nat), 1 ≤ k → (cnt : Int) + k = n →
      (∀ m ∈ l,
        (strIn (lowerStr genre) (lowerStr (details m.movie_id).genres)
          && strIn (lowerStr cast) (lowerStr (details m.movie_id).cast)) = true ∧
        ∃ r, (details m.movie_id).rating = some r ∧ mr ≤ r) →
      (filterLoop details genre cast mr n i cnt l).1 =
        List.range' i (min k l.length) := by
  intro l
  induction l with
  | nil =>
    intro i cnt k hk hn hall
    simp [filterLoop]
  | cons m rest ih =>
    intro i cnt k hk hn hall
    obtain ⟨hcond, r, hrat, hle⟩ := hall m (List.mem_cons_self m rest)
    by_cases hbreak : n ≤ (cnt : Int) + 1
    · rw [filterLoop_cons_break details genre cast mr n i cnt m rest r
        hcond hrat hle hbreak]
      have hk1 : k = 1 := by omega
      subst hk1
      rw [List.length_cons, Nat.min_eq_left (by omega), List.range'_succ]
      simp
    · obtain ⟨e1, _⟩ := filterLoop_cons_keep details genre cast mr n i cnt
        m rest r hcond hrat hle hbreak
      rw [e1, ih (i + 1) (cnt + 1) (k - 1) (by omega) (by push_cast; omega)
        (fun m' hm' => hall m' (List.mem_cons_of_mem m hm'))]
      have hmin : min k (m :: rest).length = min (k - 1) rest.length + 1 := by
        rw [List.length_cons]
        omega
      rw [hmin, List.range'_succ]

/-- When the quota is already met or exceeded before any match is found
(`num_results ≤ cnt`, e.g. a non-positive requested count at the top level),
the first passing movie is still appended before the break test fires, so the
loop returns exactly one match whenever any remaining movie passes. -/
theorem filterLoop_zero_quota (details : Nat → Details) (genre cast : String)
    (mr : ℚ) (n : Int) :
    ∀ (l : List Movie) (i cnt : Nat), n ≤ (cnt : Int) →
      (∃ m ∈ l,
        (strIn (lowerStr genre) (lowerStr (details m.movie_id).genres)
          && strIn (lowerStr cast) (lowerStr (details m.movie_id).cast)) = true ∧
        ∃ r, (details m.movie_id).rating = some r ∧ mr ≤ r) →
      (filterLoop details genre cast mr n i cnt l).1.length = 1 := by
  intro l
  induction l with
  | nil =>
    rintro i cnt hn ⟨m, hm, -⟩
    simp at hm
  | cons m rest ih =>
    intro i cnt hn hex
    by_cases hpass :
        (strIn (lowerStr genre) (lowerStr (details m.movie_id).genres)
          && strIn (lowerStr cast) (lowerStr (details m.movie_id).cast)) = true ∧
        ∃ r, (details m.movie_id).rating = some r ∧ mr ≤ r
    · obtain ⟨hcond, r, hrat, hle⟩ := hpass
      rw [filterLoop_cons_break details genre cast mr n i cnt m rest r
        hcond hrat hle (by omega)]
      simp
    · have hskip :
          (strIn (lowerStr genre) (lowerStr (details m.movie_id).genres)
            && strIn (lowerStr cast) (lowerStr (details m.movie_id).cast)) = false
          ∨ (details m.movie_id).rating = none
          ∨ ∃ r, (details m.movie_id).rating = some r ∧ ¬ mr ≤ r := by
        by_cases hc :
            (strIn (lowerStr genre) (lowerStr (details m.movie_id).genres)
              && strIn (lowerStr cast)
                (lowerStr (details m.movie_id).cast)) = true
        · cases hrat : (details m.movie_id).rating with
          | none => exact Or.inr (Or.inl rfl)
          | some r =>
            by_cases hle : mr ≤ r
            · exact absurd ⟨hc, r, hrat, hle⟩ hpass
            · exact Or.inr (Or.inr ⟨r, rfl, hle⟩)
        · exact Or.inl (by simpa using hc)
      obtain ⟨e1, -⟩ := filterLoop_cons_skip details genre cast mr n i cnt
        m rest hskip
      rw [e1]
      apply ih (i + 1) cnt hn
      obtain ⟨m', hm', hp'⟩ := hex
      rcases List.mem_cons.mp hm' with he | hm'
      · exact absurd (he ▸ hp') hpass
      · exact ⟨m', hm', hp'⟩

/-- The empty needle is a substring of every haystack (Python: `"" in s`). -/
theorem hasSub_nil (hay : List Char) : hasSub [] hay = true := by
  cases hay <;> simp [hasSub, leadsWith, List.isEmpty]

/-- An empty filter string passes the case-insensitive containment test for
every haystack. -/
theorem strIn_empty_lower (s : String) : strIn (lowerStr "") s = true := by
  have h : (lowerStr "").data = [] := by decide
  unfold strIn
  rw [h]
  exact hasSub_nil s.data

/-! ### Claim theorems for the criteria filter -/

/-- C3: every position returned by `filter_movies_by_criteria` denotes a
catalog movie whose genres string contains the genre filter case-insensitively,
whose cast string contains the cast filter case-insensitively, and whose rating
is numeric and at least `min_rating`; and the returned positions are in
catalog scan order (strictly ascending). -/
theorem filter_movies_spec (movies : List Movie) (details : Nat → Details)
    (genre cast : String) (mr : ℚ) (n : Int) :
    (∀ j ∈ filter_movies_by_criteria movies details genre cast mr n,
      ∃ m, movies[j]? = some m ∧
        strIn (lowerStr genre) (lowerStr (details m.movie_id).genres) = true ∧
        strIn (lowerStr cast) (lowerStr (details m.movie_id).cast) = true ∧
        ∃ r, (details m.movie_id).rating = some r ∧ mr ≤ r) ∧
    (filter_movies_by_criteria movies details genre cast mr n).Pairwise
      (· < ·) := by
  constructor
  · intro j hj
    obtain ⟨k, hk, hjk, m, hm, h1, h2, h3⟩ :=
      filterLoop_mem details genre cast mr n movies 0 0 j hj
    have hjk' : j = k := by omega
    subst hjk'
    exact ⟨m, hm, h1, h2, h3⟩
  · exact filterLoop_pairwise details genre cast mr n movies 0 0

/-- C4 counterexample: with requested count 0 and a catalog whose single movie
passes every predicate, the filter returns one result — more than the
requested count — because the quota test runs only after the first append. -/
theorem filter_count_exceeded_cex :
    filter_movies_by_criteria [⟨1, "A"⟩]
      (fun _ => ⟨"p", "Action", some 5, "X"⟩) "" "" 0 0 = [0] ∧
    ¬ (((filter_movies_by_criteria [⟨1, "A"⟩]
      (fun _ => ⟨"p", "Action", some 5, "X"⟩) "" "" 0 0).length : Int) ≤ 0) := by
  constructor
  · decide
  · decide

/-- C4 (amended): for every requested count `n ≥ 1`, the filter never returns
more than `n` results, and whenever it returns exactly `n` results the scan
stopped at the `n`-th match: the number of scanned entries (= metadata
fetches) is the position of the last returned match plus one, so no later
catalog entry is ever inspected. -/
theorem filter_count_bound (movies : List Movie) (details : Nat → Details)
    (genre cast : String) (mr : ℚ) (n : Int) (hn : 1 ≤ n) :
    ((filter_movies_by_criteria movies details genre cast mr n).length : Int)
      ≤ n ∧
    (((filter_movies_by_criteria movies details genre cast mr n).length : Int)
        = n →
      ∃ p, (filter_movies_by_criteria movies details
          genre cast mr n).getLast? = some p ∧
        scannedCount movies details genre cast mr n = p + 1) := by
  constructor
  · have h := filterLoop_length_le details genre cast mr n movies 0 0
      (by push_cast; omega)
    unfold filter_movies_by_criteria
    push_cast at h ⊢
    omega
  · intro hlen
    unfold filter_movies_by_criteria at hlen
    obtain ⟨p, hp1, hp2⟩ := filterLoop_scan_stops details genre cast mr n
      movies 0 0 (by push_cast; omega) (by push_cast at hlen ⊢; omega)
    exact ⟨p, hp1, by unfold scannedCount; omega⟩

/-- C6: under a positive minimum rating, a movie whose rating is the
non-numeric sentinel is never among the filter results, and such a movie does
not abort the scan: wherever it occurs, the loop skips it and continues with
the remaining entries, which can still match. -/
theorem filter_unknown_rating_skipped (movies : List Movie)
    (details : Nat → Details) (genre cast : String) (mr : ℚ) (n : Int)
    (hmr : 0 < mr) (j : Nat) (m : Movie) (hj : movies[j]? = some m)
    (hunk : (details m.movie_id).rating = none) :
    j ∉ filter_movies_by_criteria movies details genre cast mr n ∧
    ∀ (i cnt : Nat) (rest : List Movie),
      (filterLoop details genre cast mr n i cnt (m :: rest)).1
        = (filterLoop details genre cast mr n (i + 1) cnt rest).1 ∧
      (filterLoop details genre cast mr n i cnt (m :: rest)).2
        = (filterLoop details genre cast mr n (i + 1) cnt rest).2 + 1 := by
  constructor
  · intro hj'
    obtain ⟨k, hk, hjk, m', hm', _, _, r, hrat, -⟩ :=
      filterLoop_mem details genre cast mr n movies 0 0 j hj'
    have hjk' : j = k := by omega
    subst hjk'
    rw [hj] at hm'
    injection hm' with hmm
    subst hmm
    rw [hunk] at hrat
    exact Option.noConfusion hrat
  · intro i cnt rest
    exact filterLoop_cons_skip details genre cast mr n i cnt m rest
      (Or.inr (Or.inl hunk))

/-- C7 counterexample: with empty genre and cast filters and a zero rating
threshold, a movie carrying the non-numeric rating sentinel is still skipped
(`float` raises before the comparison), so the filter does not return the
first `min(N, catalogSize)` catalog entries. -/
theorem filter_trivial_not_all_cex :
    filter_movies_by_criteria [⟨1, "A"⟩]
      (fun _ => ⟨"p", "Action", none, "X"⟩) "" "" 0 1 = [] ∧
    filter_movies_by_criteria [⟨1, "A"⟩]
        (fun _ => ⟨"p", "Action", none, "X"⟩) "" "" 0 1 ≠
      List.range (min 1 [(⟨1, "A"⟩ : Movie)].length) := by
  constructor
  · decide
  · decide

/-- C7 (amended): for every requested count `n ≥ 1`, if every catalog movie's
metadata carries a numeric nonnegative rating, then
`filter_movies_by_criteria("", "", 0, n)` returns the first
`min(n, catalogSize)` catalog positions in catalog order. -/
theorem filter_trivial_returns_first (movies : List Movie)
    (details : Nat → Details) (n : Int) (hn : 1 ≤ n)
    (hrat : ∀ m ∈ movies, ∃ r, (details m.movie_id).rating = some r ∧ 0 ≤ r) :
    filter_movies_by_criteria movies details "" "" 0 n =
      List.range (min n.toNat movies.length) := by
  unfold filter_movies_by_criteria
  rw [filterLoop_all_pass details "" "" 0 n movies 0 0 n.toNat (by omega)
    (by push_cast; omega) ?_]
  · rw [List.range_eq_range']
  · intro m hm
    refine ⟨?_, hrat m hm⟩
    rw [Bool.and_eq_true]
    exact ⟨strIn_empty_lower _, strIn_empty_lower _⟩

/-- C9: with a non-positive requested count and at least one catalog movie
passing all three predicates, the filter returns exactly one result rather
than zero: the quota check `len(matched) >= num_results` is evaluated only
after the first match has been appended. -/
theorem filter_nonpositive_count_one (movies : List Movie)
    (details : Nat → Details) (genre cast : String) (mr : ℚ) (n : Int)
    (hn : n ≤ 0)
    (hex : ∃ m ∈ movies,
      (strIn (lowerStr genre) (lowerStr (details m.movie_id).genres)
        && strIn (lowerStr cast) (lowerStr (details m.movie_id).cast)) = true ∧
      ∃ r, (details m.movie_id).rating = some r ∧ mr ≤ r) :
    (filter_movies_by_criteria movies details genre cast mr n).length = 1 :=
  filterLoop_zero_quota details genre cast mr n movies 0 0
    (by push_cast; omega) hex

/-- C8: `fetch_trailer` returns the watch URL built from the first response
entry whose type is "Trailer" and whose site is "YouTube"; when no entry
qualifies, or when the request fails, it returns the fixed fallback URL
(the platform's home page) instead of propagating an error. -/
theorem fetch_trailer_spec (pre post : List Video) (v : Video)
    (hpre : ∀ u ∈ pre, ¬ (u.type = "Trailer" ∧ u.site = "YouTube"))
    (hv : v.type = "Trailer" ∧ v.site = "YouTube") :
    fetch_trailer (some (pre ++ v :: post))
      = "https://www.youtube.com/watch?v=" ++ v.key ∧
    fetch_trailer none = "https://youtube.com" ∧
    ∀ vids : List Video,
      (∀ u ∈ vids, ¬ (u.type = "Trailer" ∧ u.site = "YouTube")) →
      fetch_trailer (some vids) = "https://youtube.com" := by
  have hfind : ∀ pre' : List Video,
      (∀ u ∈ pre', ¬ (u.type = "Trailer" ∧ u.site = "YouTube")) →
      (pre' ++ v :: post).find?
        (fun u => u.type == "Trailer" && u.site == "YouTube") = some v := by
    intro pre'
    induction pre' with
    | nil =>
      intro _
      exact List.find?_cons_of_pos _ (by simp [hv.1, hv.2])
    | cons u us ih =>
      intro hp
      rw [List.cons_append, List.find?_cons_of_neg _ ?_]
      · exact ih (fun w hw => hp w (List.mem_cons_of_mem u hw))
      · simp only [Bool.and_eq_true, beq_iff_eq]
        exact hp u (List.mem_cons_self u us)
  refine ⟨?_, rfl, ?_⟩
  · simp only [fetch_trailer, hfind pre hpre]
  · intro vids hnone
    have hf : vids.find?
        (fun u => u.type == "Trailer" && u.site == "YouTube") = none :=
      List.find?_eq_none.mpr (fun u hu => by
        simp only [Bool.and_eq_true, beq_iff_eq]
        exact hnone u hu)
    simp only [fetch_trailer, hf]

/-- C8 witness: a response whose second entry is the first YouTube trailer. -/
theorem fetch_trailer_spec_witness :
    (∀ u ∈ [(⟨"Teaser", "YouTube", "t0"⟩ : Video)],
      ¬ (u.type = "Trailer" ∧ u.site = "YouTube")) ∧
    ((⟨"Trailer", "YouTube", "abc"⟩ : Video).type = "Trailer" ∧
      (⟨"Trailer", "YouTube", "abc"⟩ : Video).site = "YouTube") ∧
    (fetch_trailer (some ([(⟨"Teaser", "YouTube", "t0"⟩ : Video)] ++
        (⟨"Trailer", "YouTube", "abc"⟩ : Video) ::
          [⟨"Trailer", "Vimeo", "z"⟩]))
      = "https://www.youtube.com/watch?v=" ++
          (⟨"Trailer", "YouTube", "abc"⟩ : Video).key ∧
    fetch_trailer none = "https://youtube.com" ∧
    ∀ vids : List Video,
      (∀ u ∈ vids, ¬ (u.type = "Trailer" ∧ u.site = "YouTube")) →
      fetch_trailer (some vids) = "https://youtube.com") :=
  ⟨by decide, by decide,
    fetch_trailer_spec [⟨"Teaser", "YouTube", "t0"⟩]
      [⟨"Trailer", "Vimeo", "z"⟩] ⟨"Trailer", "YouTube", "abc"⟩
      (by decide) (by decide)⟩



/-- C4 witness: the amended count bound evaluated at requested count 2. -/
theorem filter_count_bound_witness :
    (1 : Int) ≤ 2 ∧
    (((filter_movies_by_criteria demoCatalog demoDetails "" "" 0 2).length :
        Int) ≤ 2 ∧
    (((filter_movies_by_criteria demoCatalog demoDetails "" "" 0 2).length :
        Int) = 2 →
      ∃ p, (filter_movies_by_criteria demoCatalog demoDetails
          "" "" 0 2).getLast? = some p ∧
        scannedCount demoCatalog demoDetails "" "" 0 2 = p + 1)) :=
  ⟨by decide, filter_count_bound demoCatalog demoDetails "" "" 0 2 (by decide)⟩

/-- C6 witness: movie C (position 2, id 3) has the unknown-rating sentinel and
is skipped without aborting the scan. -/
theorem filter_unknown_rating_skipped_witness :
    (0 : ℚ) < 1 ∧ demoCatalog[2]? = some ⟨3, "C"⟩ ∧
    (demoDetails (⟨3, "C"⟩ : Movie).movie_id).rating = none ∧
    (2 ∉ filter_movies_by_criteria demoCatalog demoDetails "" "" 1 10 ∧
    ∀ (i cnt : Nat) (rest : List Movie),
      (filterLoop demoDetails "" "" 1 10 i cnt ((⟨3, "C"⟩ : Movie) :: rest)).1
        = (filterLoop demoDetails "" "" 1 10 (i + 1) cnt rest).1 ∧
      (filterLoop demoDetails "" "" 1 10 i cnt ((⟨3, "C"⟩ : Movie) :: rest)).2
        = (filterLoop demoDetails "" "" 1 10 (i + 1) cnt rest).2 + 1) :=
  ⟨by decide, by decide, by decide,
    filter_unknown_rating_skipped demoCatalog demoDetails "" "" 1 10
      (by decide) 2 ⟨3, "C"⟩ (by decide) (by decide)⟩

/-- C7 witness: with all-numeric nonnegative ratings and trivial filters, the
first `min(2, 3)` positions are returned. -/
theorem filter_trivial_returns_first_witness :
    (1 : Int) ≤ 2 ∧
    (∀ m ∈ demoCatalog,
      ∃ r, (demoDetailsNumeric m.movie_id).rating = some r ∧ (0 : ℚ) ≤ r) ∧
    filter_movies_by_criteria demoCatalog demoDetailsNumeric "" "" 0 2 =
      List.range (min (2 : Int).toNat demoCatalog.length) :=
  ⟨by decide, by decide,
    filter_trivial_returns_first demoCatalog demoDetailsNumeric 2
      (by decide) (by decide)⟩

/-- C9 witness: requested count 0 with a matching movie yields one result. -/
theorem filter_nonpositive_count_one_witness :
    ((0 : Int) ≤ 0) ∧
    (∃ m ∈ demoCatalog,
      (strIn (lowerStr "") (lowerStr (demoDetails m.movie_id).genres)
        && strIn (lowerStr "") (lowerStr (demoDetails m.movie_id).cast))
          = true ∧
      ∃ r, (demoDetails m.movie_id).rating = some r ∧ (0 : ℚ) ≤ r) ∧
    (filter_movies_by_criteria demoCatalog demoDetails "" "" 0 0).length = 1 :=
  ⟨by decide, by decide,
    filter_nonpositive_count_one demoCatalog demoDetails "" "" 0 0
      (by decide) (by decide)⟩
